import Mathlib

/-!
# Single-page-application fallback handler (`spa.go`)

A shallow embedding of `NewSinglePageAppHandler`, `newSinglePageAppHandlerDebug`,
`newSinglePageAppHandler` and `canServeFile`, together with the standard-library functions
whose results they depend on (`path.Clean`, `strings.TrimLeft`, `Request.Context`,
`Request.Clone`), and the properties of the handler that follow from the code. The file
system behind `fs.FS`, `runtime.Caller` and `os.OpenRoot` are parameters, and so is the
delegate `http.FileServerFS`, except where its own write to the request matters: there it is
`fileHandler`, the `ServeHTTP` of the standard library's file server.
-/

namespace GoHandlers

/-! ## Strings -/

/-- A Go string is an immutable sequence of bytes; a byte is kept as its numeric value. -/
abbrev GoString := List Nat

/-- The byte `'/'`. -/
def slash : Nat := 47

/-- The byte `'.'`. -/
def dot : Nat := 46

/-- The bytes of an ASCII literal. -/
def str (s : String) : GoString := s.toList.map Char.toNat

/-- `strings.TrimLeft(s, cutset)` for a cutset of ASCII bytes: the longest leading run of
bytes that occur in `cutset` is removed. -/
def TrimLeft (s cutset : GoString) : GoString :=
  s.dropWhile (fun b => decide (b ∈ cutset))

/-- True when the unread input is at the end of a path element: `r == n || path[r] == '/'`. -/
def atElemEnd : GoString → Bool
  | [] => true
  | c :: _ => decide (c = slash)

/-- The inner loop of the `..` case of `path.Clean`, run after the first `out.w--`:
`for out.w > dotdot && out.index(out.w) != '/' { out.w-- }`. The argument is `out.w` and the
result is its final value; `buf` holds the bytes written so far. -/
def backtrack (buf : GoString) (dotdot : Nat) : Nat → Nat
  | 0 => 0
  | w + 1 =>
    if w + 1 > dotdot ∧ buf[w + 1]? ≠ some slash then backtrack buf dotdot w else w + 1

/-- The `..` case of `path.Clean`: the new output buffer and the new `dotdot` mark. -/
def dotdotElem (rooted : Bool) (out : GoString) (dotdot : Nat) : GoString × Nat :=
  if out.length > dotdot then
    -- can backtrack
    (out.take (backtrack out dotdot (out.length - 1)), dotdot)
  else if !rooted then
    -- cannot backtrack, but not rooted, so append .. element
    let out1 := if out.length > 0 then out ++ [slash] else out
    let out2 := out1 ++ [dot, dot]
    (out2, out2.length)
  else
    (out, dotdot)

/-- The start of a real path element in `path.Clean`: a separating slash is added if needed. -/
def addSlash (rooted : Bool) (out : GoString) : GoString :=
  if (rooted ∧ out.length ≠ 1) ∨ (¬ rooted ∧ out.length ≠ 0) then out ++ [slash] else out

/-- The main loop `for r < n { switch ... }` of `path.Clean`. The list argument is the unread
input `path[r:]`, `out` is the content `buf[:w]` of the output buffer (the `lazybuf`, which
shares the bytes of `path` until the output differs from it) and `dotdot` the index where
`..` must stop. The flag is true while the default case is copying a real path element
(`for ; r < n && path[r] != '/'; r++ { out.append(path[r]) }`); when that copy meets a
slash the next iteration of the main loop skips it, and both steps are taken at once here. -/
def cleanLoop (rooted : Bool) : Bool → GoString → GoString → Nat → GoString
  | _, [], out, _ => out
  | true, c :: t, out, dotdot =>
    if c = slash then cleanLoop rooted false t out dotdot
    else cleanLoop rooted true t (out ++ [c]) dotdot
  | false, [c], out, _ =>
    if c = slash then out
    else if c = dot then out
    else addSlash rooted out ++ [c]
  | false, c :: d :: t, out, dotdot =>
    if c = slash then
      -- empty path element
      cleanLoop rooted false (d :: t) out dotdot
    else if c = dot ∧ d = slash then
      -- . element
      cleanLoop rooted false (d :: t) out dotdot
    else if c = dot ∧ d = dot ∧ atElemEnd t then
      -- .. element: remove to last /
      cleanLoop rooted false t (dotdotElem rooted out dotdot).1 (dotdotElem rooted out dotdot).2
    else
      -- real path element
      cleanLoop rooted true (d :: t) (addSlash rooted out ++ [c]) dotdot

/-- Go's `path.Clean`: the shortest path name equivalent to `path` by purely lexical
processing. -/
def Clean (path : GoString) : GoString :=
  match path with
  | [] => [dot]
  | c :: t =>
    let rooted := decide (c = slash)
    let out :=
      if rooted then cleanLoop true false t [slash] 1
      else cleanLoop false false (c :: t) [] 0
    -- Turn empty string into "."
    if out.length = 0 then [dot] else out

/-- The name with one leading separator removed, if it has one (the wording of the
specification: "with any single leading separator stripped"). -/
def stripOneSeparator : GoString → GoString
  | [] => []
  | c :: t => if c = slash then t else c :: t

/-! ## The asset source (`fs.FS`) -/

/-- An error value, identified by its text. -/
structure Error where
  text : GoString
  deriving DecidableEq

/-- The value `errors.New(text)`. -/
def errorsNew (text : GoString) : Error := ⟨text⟩

/-- The part of `fs.FileInfo` the handler reads. -/
structure FileInfo where
  Size : Nat
  IsDir : Bool
  deriving DecidableEq

/-- An opened `fs.File`: `fd` identifies the handle, `Stat` is the result of `f.Stat()`. -/
structure File where
  fd : Nat
  Stat : Except Error FileInfo

/-- An asset source, `fs.FS`: the result of `fsys.Open(name)` for every name. -/
structure FS where
  Open : GoString → Except Error File

/-- A method call made on the asset source or on one of its files. -/
inductive Call where
  | Open (name : GoString)
  | Stat (fd : Nat)
  | Close (fd : Nat)
  deriving DecidableEq

/-- `canServeFile(fsys, file)`: the boolean it returns and the calls it makes, in order.
`defer f.Close()` runs when the function returns, after the body of every path that
follows the successful open. -/
def canServeFile (fsys : FS) (file : GoString) : Bool × List Call :=
  let name := TrimLeft file (str "/")
  match fsys.Open name with
  | .error _ => (false, [Call.Open name])
  | .ok f =>
    let deferred := [Call.Close f.fd]
    match f.Stat with
    | .error _ => (false, [Call.Open name, Call.Stat f.fd] ++ deferred)
    | .ok stat =>
      if stat.IsDir then (false, [Call.Open name, Call.Stat f.fd] ++ deferred)
      else (true, [Call.Open name, Call.Stat f.fd] ++ deferred)

/-- The handles left open by a sequence of calls on an asset source whose open handles were
`opened` before: a successful `Open` adds the handle it returns, `Close` removes it. -/
def openHandles (fsys : FS) : List Call → List Nat → List Nat
  | [], opened => opened
  | Call.Open name :: rest, opened =>
    match fsys.Open name with
    | .ok f => openHandles fsys rest (f.fd :: opened)
    | .error _ => openHandles fsys rest opened
  | Call.Stat _ :: rest, opened => openHandles fsys rest opened
  | Call.Close fd :: rest, opened => openHandles fsys rest (opened.erase fd)

/-- The handles closed by a sequence of calls, in order. -/
def closeCalls : List Call → List Nat
  | [] => []
  | Call.Close fd :: rest => fd :: closeCalls rest
  | _ :: rest => closeCalls rest

/-! ## Requests (`net/http`) -/

/-- The identity of a `context.Context` value; two requests with the same context observe
the same cancellation and deadline. -/
abbrev Context := Nat

/-- The value `context.Background()`. -/
def Background : Context := 0

/-- A `url.URL` struct: its `Path` and its remaining fields. -/
structure URL (U : Type) where
  Path : GoString
  rest : U

/-- A `http.Request` struct: its context (`none` is nil), the pointer in its `URL` field and
its remaining fields. -/
structure Request (R : Type) where
  ctx : Option Context
  URL : Nat
  rest : R

/-- `r.Context()`: the request's context, `context.Background()` when the field is nil. -/
def Request.Context {R : Type} (r : Request R) : Context :=
  match r.ctx with
  | some c => c
  | none => Background

/-- The memory holding `http.Request` and `url.URL` structs, addressed by pointer. The
server hands a handler a non-nil request with a non-nil URL, so every pointer is read as a
struct; `nextRequest` and `nextURL` are the addresses the next allocations return. -/
structure Heap (R U : Type) where
  requests : Nat → Request R
  urls : Nat → URL U
  nextRequest : Nat
  nextURL : Nat

/-- `r.Clone(ctx)`: a deep copy of the request with its context changed to `ctx`. A new
`Request` and a new `URL` struct are allocated; the pointer to the copy and the new memory
are returned. -/
def Clone {R U : Type} (h : Heap R U) (r : Nat) (ctx : Context) : Nat × Heap R U :=
  let req := h.requests r
  let u2 := h.nextURL
  let r2 := h.nextRequest
  (r2, { requests := Function.update h.requests r2 { req with ctx := some ctx, URL := u2 }
         urls := Function.update h.urls u2 (h.urls req.URL)
         nextRequest := r2 + 1
         nextURL := u2 + 1 })

/-- The assignment `r.URL.Path = p`. -/
def setURLPath {R U : Type} (h : Heap R U) (r : Nat) (p : GoString) : Heap R U :=
  let u := (h.requests r).URL
  { h with urls := Function.update h.urls u { h.urls u with Path := p } }

/-- The value of `r.URL.Path`. -/
def URLPath {R U : Type} (h : Heap R U) (r : Nat) : GoString :=
  (h.urls (h.requests r).URL).Path

/-- A `http.Handler`: `ServeHTTP(w, r)` acts on the response writer and on memory. -/
abbrev Handler (W R U : Type) := W → Nat → Heap R U → W × Heap R U

/-- The handler that `newSinglePageAppHandler` builds: what its `ServeHTTP(w, r)` does to the
response writer and to memory, and the calls it makes itself on the asset source, in
order. -/
abbrev SPAHandler (W R U : Type) := W → Nat → Heap R U → (W × Heap R U) × List Call

/-- `newSinglePageAppHandler(fsys)`. `FileServerFS` is `http.FileServerFS`, the delegate
static-file server of the standard library. -/
def newSinglePageAppHandler {W R U : Type} (FileServerFS : FS → Handler W R U) (fsys : FS) :
    SPAHandler W R U :=
  let srv := FileServerFS fsys
  fun w r h =>
    let check := canServeFile fsys (Clean (URLPath h r))
    if check.1 then
      (srv w r h, check.2)
    else
      let c := Clone h r (h.requests r).Context
      let r2 := c.1
      let h2 := setURLPath c.2 r2 (str "/")
      (srv w r2 h2, check.2)

/-- `strings.HasPrefix(s, p)`. -/
def HasPrefix (s p : GoString) : Bool :=
  p.isPrefixOf s

/-- The `ServeHTTP` of the `fileHandler` that `http.FileServerFS(root)` returns: a URL path
without a leading slash is given one, in the request itself, and the file named by the
cleaned path is served. `serveFile` is the standard library's `serveFile(w, r, fs, name,
redirect)`, which writes the response. -/
def fileHandler {W R U : Type}
    (serveFile : W → Nat → Heap R U → FS → GoString → Bool → W × Heap R U) (root : FS) :
    Handler W R U :=
  fun w r h =>
    let upath := URLPath h r
    if !HasPrefix upath (str "/") then
      let upath := str "/" ++ upath
      let h := setURLPath h r upath
      serveFile w r h root (Clean upath) true
    else
      serveFile w r h root (Clean upath) true

/-! ## Construction -/

/-- The result of `os.OpenRoot`: a directory root, read through `Root.FS()`. -/
structure Root where
  FS : FS

/-- What the constructor reads from its environment: the build flag `debug.Debug`,
`runtime.Caller(skip)` as seen from `newSinglePageAppHandlerDebug` (the file name when ok),
`filepath.Dir`, `filepath.Join` and `os.OpenRoot`. -/
structure Runtime where
  Debug : Bool
  Caller : Nat → Option GoString
  Dir : GoString → GoString
  Join : GoString → GoString → GoString
  OpenRoot : GoString → Except Error Root

/-- `newSinglePageAppHandlerDebug(embedPath)`: the pair `(http.Handler, error)`, `none`
standing for nil. -/
def newSinglePageAppHandlerDebug {W R U : Type} (rt : Runtime)
    (FileServerFS : FS → Handler W R U) (embedPath : GoString) :
    Option (SPAHandler W R U) × Option Error :=
  match rt.Caller 2 with
  | none => (none, some (errorsNew (str "could not get caller information")))
  | some staticLocation =>
    let staticLocation := rt.Join (rt.Dir staticLocation) embedPath
    match rt.OpenRoot staticLocation with
    | .error err => (none, some err)
    | .ok static => (some (newSinglePageAppHandler FileServerFS static.FS), none)

/-- `NewSinglePageAppHandler(embedFs, embedPath)`. -/
def NewSinglePageAppHandler {W R U : Type} (rt : Runtime) (FileServerFS : FS → Handler W R U)
    (embedFs : FS) (embedPath : GoString) : Option (SPAHandler W R U) × Option Error :=
  if rt.Debug then
    newSinglePageAppHandlerDebug rt FileServerFS embedPath
  else
    (some (newSinglePageAppHandler FileServerFS embedFs), none)

/-! ## The shape of a cleaned rooted path -/

/-- A path element that is not empty, holds no slash and is neither `.` nor `..`. -/
def GoodElem (e : GoString) : Prop :=
  e ≠ [] ∧ slash ∉ e ∧ e ≠ [dot] ∧ e ≠ [dot, dot]

/-- The rooted path with the given elements, the last element first: the root slash, then
every element written the way the default case of `path.Clean` writes it. -/
def renderRooted : List GoString → GoString
  | [] => [slash]
  | e :: es => addSlash true (renderRooted es) ++ e

/-- What holds of the output buffer of `path.Clean` on a rooted path before each step of the
main loop: it is the rooted path of good elements, followed, while an element is being
copied, by the part of that element already copied. -/
def LoopInv (flag : Bool) (rest out : GoString) : Prop :=
  if flag then
    ∃ es cur, (∀ e ∈ es, GoodElem e) ∧ GoodElem (cur ++ rest.takeWhile (fun b => b ≠ slash)) ∧
      cur ≠ [] ∧ out = addSlash true (renderRooted es) ++ cur
  else
    ∃ es, (∀ e ∈ es, GoodElem e) ∧ out = renderRooted es

/-- The elements of a slash-separated name, as `strings.Split(name, "/")` gives them. -/
def splitSlash : GoString → List GoString
  | [] => [[]]
  | c :: t =>
    if c = slash then [] :: splitSlash t
    else
      match splitSlash t with
      | e :: es => (c :: e) :: es
      | [] => [[c]]

/-! ## A small asset source used for concrete instances -/

/-- An asset source holding the files `index.html` and `assets/app.js`; `broken` opens
but cannot be inspected. -/
def demoFS : FS where
  Open := fun name =>
    if name = str "index.html" then .ok ⟨3, .ok ⟨120, false⟩⟩
    else if name = str "assets/app.js" then .ok ⟨4, .ok ⟨2048, false⟩⟩
    else if name = str "assets" then .ok ⟨5, .ok ⟨0, true⟩⟩
    else if name = str "." then .ok ⟨6, .ok ⟨0, true⟩⟩
    else if name = str "broken" then .ok ⟨7, .error ⟨str "input/output error"⟩⟩
    else .error ⟨str "file does not exist"⟩

/-- A memory holding one request, at address 0, with context 9 and the given URL path. -/
def demoHeap (path : GoString) : Heap Nat Nat where
  requests := fun _ => ⟨some 9, 0, 1⟩
  urls := fun _ => ⟨path, 2⟩
  nextRequest := 1
  nextURL := 1

/-- A delegate that records the path it is asked for in the response writer. -/
def demoServer : FS → Handler GoString Nat Nat :=
  fun _ _ r h => (URLPath h r, h)

/-- A `serveFile` that records the name it is asked to serve in the response writer and
writes nothing to memory. -/
def demoServeFile : GoString → Nat → Heap Nat Nat → FS → GoString → Bool →
    GoString × Heap Nat Nat :=
  fun _ _ h _ name _ => (name, h)

/-- A debug-mode environment whose caller is known and in which only `/src/web/dist` can be
opened as a root. -/
def demoRuntime (debug : Bool) : Runtime where
  Debug := debug
  Caller := fun skip => if skip = 2 then some (str "/src/web/main.go") else none
  Dir := fun _ => str "/src/web"
  Join := fun a b => a ++ str "/" ++ b
  OpenRoot := fun name =>
    if name = str "/src/web/dist" then .ok ⟨demoFS⟩ else .error ⟨str "no such file or directory"⟩

/-- The table `cleantests` of the standard library's test of `path.Clean`: each path with
its expected result. -/
def cleantests : List (String × String) :=
  [("", "."), ("abc", "abc"), ("abc/def", "abc/def"), ("a/b/c", "a/b/c"), (".", "."),
   ("..", ".."), ("../..", "../.."), ("../../abc", "../../abc"), ("/abc", "/abc"),
   ("/", "/"), ("abc/", "abc"), ("abc/def/", "abc/def"), ("a/b/c/", "a/b/c"), ("./", "."),
   ("../", ".."), ("../../", "../.."), ("/abc/", "/abc"),
   ("abc//def//ghi", "abc/def/ghi"), ("//abc", "/abc"), ("///abc", "/abc"),
   ("//abc//", "/abc"), ("abc//", "abc"), ("abc/./def", "abc/def"),
   ("/./abc/def", "/abc/def"), ("abc/.", "abc"), ("abc/def/ghi/../jkl", "abc/def/jkl"),
   ("abc/def/../ghi/../jkl", "abc/jkl"), ("abc/def/..", "abc"), ("abc/def/../..", "."),
   ("/abc/def/../..", "/"), ("abc/def/../../..", ".."), ("/abc/def/../../..", "/"),
   ("abc/def/../../../ghi/jkl/../../../mno", "../../mno"), ("abc/./../def", "def"),
   ("abc//./../def", "def"), ("abc/../../././../def", "../../def")]

/-! ## The model of `path.Clean` on the standard library's test table -/

theorem Clean_cleantests : ∀ t ∈ cleantests, Clean (str t.1) = str t.2 := by decide

/-! ## Servability -/

theorem str_slash : str "/" = [slash] := by decide

theorem canServeFile_fst_eq_true (fsys : FS) (file : GoString) :
    (canServeFile fsys file).1 = true ↔
      ∃ f info, fsys.Open (TrimLeft file (str "/")) = .ok f ∧ f.Stat = .ok info ∧
        info.IsDir = false := by
  unfold canServeFile
  cases hopen : fsys.Open (TrimLeft file (str "/")) with
  | error e => simp [hopen]
  | ok f =>
    cases hstat : f.Stat with
    | error e => simp [hopen, hstat]
    | ok info =>
      cases hdir : info.IsDir <;> simp [hopen, hstat, hdir]


/-! ## `path.Clean` of a path that is not rooted -/

theorem slash_ne_dot : slash ≠ dot := by decide

theorem head_append_single (out : GoString) (c : Nat) (hout : out.head? ≠ some slash)
    (hc : c ≠ slash) : (out ++ [c]).head? ≠ some slash := by
  cases out with
  | nil => simpa using hc
  | cons a as => simpa using hout

theorem head_addSlash_unrooted (out : GoString) (hout : out.head? ≠ some slash) :
    (addSlash false out).head? ≠ some slash := by
  cases out with
  | nil => simp [addSlash]
  | cons a as => simpa [addSlash] using hout

theorem head_take (out : GoString) (n : Nat) (hout : out.head? ≠ some slash) :
    (out.take n).head? ≠ some slash := by
  cases out with
  | nil => simp
  | cons a as =>
    cases n with
    | zero => simp
    | succ m => simpa using hout

theorem head_dotdotElem_unrooted (out : GoString) (dotdot : Nat)
    (hout : out.head? ≠ some slash) :
    (dotdotElem false out dotdot).1.head? ≠ some slash := by
  unfold dotdotElem
  split
  · exact head_take _ _ hout
  · cases out with
    | nil => simp; decide
    | cons a as => simpa using hout

theorem head_cleanLoop_unrooted (flag : Bool) (rest out : GoString) (dotdot : Nat) :
    out.head? ≠ some slash → (cleanLoop false flag rest out dotdot).head? ≠ some slash := by
  refine cleanLoop.induct false
    (fun flag rest out dotdot =>
      out.head? ≠ some slash → (cleanLoop false flag rest out dotdot).head? ≠ some slash)
    ?_ ?_ ?_ ?_ ?_ ?_ ?_ ?_ ?_ ?_ flag rest out dotdot
  · intro x out d h
    simpa [cleanLoop] using h
  · intro t out d ih h
    simpa [cleanLoop] using ih h
  · intro c t out d hc ih h
    simpa [cleanLoop, hc] using ih (head_append_single out c h hc)
  · intro out d h
    simpa [cleanLoop] using h
  · intro out d hne h
    simpa [cleanLoop, hne] using h
  · intro c out d hc hd h
    simpa [cleanLoop, hc, hd] using head_append_single _ c (head_addSlash_unrooted out h) hc
  · intro e t out d ih h
    simpa [cleanLoop] using ih h
  · intro c e t out d hc hce ih h
    simpa [cleanLoop, hc, hce] using ih h
  · intro c e t out d hc hce hdd ih h
    simpa [cleanLoop, hc, hce, hdd] using ih (head_dotdotElem_unrooted out d h)
  · intro c e t out d hc hce hdd ih h
    simpa [cleanLoop, hc, hce, hdd] using
      ih (head_append_single _ c (head_addSlash_unrooted out h) hc)


/-! ## `path.Clean` of a rooted path -/

theorem renderRooted_cons_slash (es : List GoString) :
    ∃ body, renderRooted es = slash :: body := by
  induction es with
  | nil => exact ⟨[], rfl⟩
  | cons e es ih =>
    obtain ⟨body, hb⟩ := ih
    unfold renderRooted addSlash
    rw [hb]
    split
    · exact ⟨body ++ [slash] ++ e, by simp⟩
    · exact ⟨body ++ e, by simp⟩

theorem renderRooted_length_pos (es : List GoString) : 1 ≤ (renderRooted es).length := by
  obtain ⟨body, hb⟩ := renderRooted_cons_slash es
  simp [hb]

theorem renderRooted_length_cons (e : GoString) (es : List GoString) (he : e ≠ []) :
    (renderRooted (e :: es)).length ≠ 1 := by
  have h1 := renderRooted_length_pos es
  have h2 : 1 ≤ e.length := List.length_pos.mpr he
  unfold renderRooted addSlash
  split <;> simp <;> omega

theorem backtrack_eq (buf : GoString) (dotdot w : Nat) :
    backtrack buf dotdot w =
      if w > dotdot ∧ buf[w]? ≠ some slash then backtrack buf dotdot (w - 1) else w := by
  cases w with
  | zero => simp [backtrack]
  | succ n => simp [backtrack]

theorem backtrack_stop (pre : GoString) (x : Nat) (e : GoString) (dotdot : Nat)
    (hdd : dotdot ≤ pre.length) (hstop : x = slash ∨ pre.length = dotdot) (he : slash ∉ e) :
    ∀ k, k ≤ e.length → backtrack (pre ++ x :: e) dotdot (pre.length + k) = pre.length := by
  intro k
  induction k with
  | zero =>
    intro _
    rw [backtrack_eq]
    have hx : (pre ++ x :: e)[pre.length + 0]? = some x := by
      rw [List.getElem?_append_right (by omega)]
      simp
    rw [hx]
    rcases hstop with h | h
    · simp [h]
    · simp [h]
  | succ k ih =>
    intro hk
    rw [backtrack_eq]
    have hlt : k < e.length := by omega
    have hx : (pre ++ x :: e)[pre.length + (k + 1)]? = some (e[k]) := by
      rw [List.getElem?_append_right (by omega)]
      simp [hlt]
    have hne : e[k] ≠ slash := by
      intro h
      exact he (h ▸ List.getElem_mem hlt)
    rw [hx]
    have hgt : pre.length + (k + 1) > dotdot := by omega
    simp only [hgt, true_and, ne_eq, Option.some.injEq, hne, not_false_eq_true, if_true]
    exact ih (by omega)


theorem dotdotElem_backtrack (rooted : Bool) (pre : GoString) (x : Nat) (tl : GoString)
    (dotdot : Nat) (hdd : dotdot ≤ pre.length) (hstop : x = slash ∨ pre.length = dotdot)
    (he : slash ∉ tl) : dotdotElem rooted (pre ++ x :: tl) dotdot = (pre, dotdot) := by
  unfold dotdotElem
  have hlen : (pre ++ x :: tl).length = pre.length + tl.length + 1 := by simp; omega
  have hgt : (pre ++ x :: tl).length > dotdot := by omega
  rw [if_pos hgt, hlen, Nat.add_sub_cancel,
    backtrack_stop pre x tl dotdot hdd hstop he tl.length (le_refl _)]
  simp

theorem dotdotElem_rooted_nil : dotdotElem true (renderRooted []) 1 = (renderRooted [], 1) := by
  simp [dotdotElem, renderRooted]

theorem dotdotElem_rooted_cons (e : GoString) (es : List GoString) (he : GoodElem e)
    (hes : ∀ a ∈ es, GoodElem a) :
    dotdotElem true (renderRooted (e :: es)) 1 = (renderRooted es, 1) := by
  cases es with
  | nil =>
    obtain ⟨hne, hsl, _, _⟩ := he
    cases e with
    | nil => exact absurd rfl hne
    | cons x tl =>
      have hout : renderRooted [x :: tl] = [slash] ++ x :: tl := by
        simp [renderRooted, addSlash]
      rw [hout]
      exact dotdotElem_backtrack true [slash] x tl 1 (by simp) (Or.inr (by simp))
        (fun h => hsl (List.mem_cons_of_mem _ h))
  | cons e2 es2 =>
    have hne2 : e2 ≠ [] := (hes e2 (List.mem_cons_self _ _)).1
    have hlen := renderRooted_length_cons e2 es2 hne2
    have hout : renderRooted (e :: e2 :: es2) = renderRooted (e2 :: es2) ++ slash :: e := by
      conv => lhs; unfold renderRooted
      simp [addSlash, hlen]
    rw [hout]
    exact dotdotElem_backtrack true _ slash e 1 (renderRooted_length_pos _) (Or.inl rfl) he.2.1

theorem takeWhile_eq_nil_iff_atElemEnd (t : GoString) :
    t.takeWhile (fun b => b ≠ slash) = [] ↔ atElemEnd t = true := by
  cases t with
  | nil => simp [atElemEnd]
  | cons c t =>
    by_cases hc : c = slash <;> simp [atElemEnd, List.takeWhile, hc]

theorem goodElem_first (c d : Nat) (t : GoString) (hc : c ≠ slash)
    (h1 : ¬ (c = dot ∧ d = slash)) (h2 : ¬ (c = dot ∧ d = dot ∧ atElemEnd t = true)) :
    GoodElem ([c] ++ (d :: t).takeWhile (fun b => b ≠ slash)) := by
  refine ⟨by simp, ?_, ?_, ?_⟩
  · intro hmem
    rcases List.mem_append.mp hmem with h | h
    · have hcs : slash = c := by simpa using h
      exact hc hcs.symm
    · have := List.mem_takeWhile_imp h
      simp at this
  · intro h
    have h3 : (d :: t).takeWhile (fun b => b ≠ slash) = [] := by simpa using (List.cons.inj h).2
    have hcd : c = dot := by simpa using (List.cons.inj h).1
    by_cases hd : d = slash
    · exact h1 ⟨hcd, hd⟩
    · simp [List.takeWhile, hd] at h3
  · intro h
    have hcd : c = dot := by simpa using (List.cons.inj h).1
    have h3 : (d :: t).takeWhile (fun b => b ≠ slash) = [dot] := by
      simpa using (List.cons.inj h).2
    by_cases hd : d = slash
    · simp [List.takeWhile, hd] at h3
    · simp [List.takeWhile, hd] at h3
      exact h2 ⟨hcd, h3.1, (takeWhile_eq_nil_iff_atElemEnd t).mp (by simpa using h3.2)⟩


theorem cleanLoop_rooted (flag : Bool) (rest out : GoString) (dotdot : Nat) :
    dotdot = 1 → LoopInv flag rest out →
      ∃ es, (∀ e ∈ es, GoodElem e) ∧ cleanLoop true flag rest out dotdot = renderRooted es := by
  refine cleanLoop.induct true
    (fun flag rest out dotdot =>
      dotdot = 1 → LoopInv flag rest out →
        ∃ es, (∀ e ∈ es, GoodElem e) ∧ cleanLoop true flag rest out dotdot = renderRooted es)
    ?_ ?_ ?_ ?_ ?_ ?_ ?_ ?_ ?_ ?_ flag rest out dotdot
  · -- the input is used up
    intro flag out d _ hinv
    cases flag with
    | false =>
      obtain ⟨es, hes, hout⟩ : ∃ es, (∀ e ∈ es, GoodElem e) ∧ out = renderRooted es := by
        simpa [LoopInv] using hinv
      exact ⟨es, hes, by simp [cleanLoop, hout]⟩
    | true =>
      obtain ⟨es, cur, hes, hcur, _, hout⟩ :
          ∃ es cur, (∀ e ∈ es, GoodElem e) ∧ GoodElem cur ∧ cur ≠ [] ∧
            out = addSlash true (renderRooted es) ++ cur := by
        simpa [LoopInv] using hinv
      refine ⟨cur :: es, ?_, by simp [cleanLoop, hout, renderRooted]⟩
      intro e he
      rcases List.mem_cons.mp he with h | h
      · exact h ▸ hcur
      · exact hes e h
  · -- the element being copied ends at a slash
    intro t out d ih hd hinv
    obtain ⟨es, cur, hes, hcur, _, hout⟩ :
        ∃ es cur, (∀ e ∈ es, GoodElem e) ∧ GoodElem cur ∧ cur ≠ [] ∧
          out = addSlash true (renderRooted es) ++ cur := by
      simpa [LoopInv, List.takeWhile] using hinv
    have hnext : LoopInv false t out := by
      simp only [LoopInv, Bool.false_eq_true, if_false]
      refine ⟨cur :: es, ?_, by simp [hout, renderRooted]⟩
      intro e he
      rcases List.mem_cons.mp he with h | h
      · exact h ▸ hcur
      · exact hes e h
    simpa [cleanLoop] using ih hd hnext
  · -- one more byte of the element is copied
    intro c t out d hc ih hd hinv
    obtain ⟨es, cur, hes, hcur, hne, hout⟩ :
        ∃ es cur, (∀ e ∈ es, GoodElem e) ∧
          GoodElem (cur ++ (c :: t).takeWhile (fun b => b ≠ slash)) ∧ cur ≠ [] ∧
          out = addSlash true (renderRooted es) ++ cur := by
      simpa [LoopInv] using hinv
    have hnext : LoopInv true t (out ++ [c]) := by
      simp only [LoopInv, if_true]
      refine ⟨es, cur ++ [c], hes, ?_, by simp, by simp [hout]⟩
      simpa [List.takeWhile, hc] using hcur
    simpa [cleanLoop, hc] using ih hd hnext
  · intro out d _ hinv
    obtain ⟨es, hes, hout⟩ : ∃ es, (∀ e ∈ es, GoodElem e) ∧ out = renderRooted es := by
      simpa [LoopInv] using hinv
    exact ⟨es, hes, by simp [cleanLoop, hout]⟩
  · intro out d hne _ hinv
    obtain ⟨es, hes, hout⟩ : ∃ es, (∀ e ∈ es, GoodElem e) ∧ out = renderRooted es := by
      simpa [LoopInv] using hinv
    exact ⟨es, hes, by simp [cleanLoop, hne, hout]⟩
  · -- a last element of one byte
    intro c out d hc hcd _ hinv
    obtain ⟨es, hes, hout⟩ : ∃ es, (∀ e ∈ es, GoodElem e) ∧ out = renderRooted es := by
      simpa [LoopInv] using hinv
    refine ⟨[c] :: es, ?_, by simp [cleanLoop, hc, hcd, hout, renderRooted]⟩
    intro e he
    rcases List.mem_cons.mp he with h | h
    · subst h
      refine ⟨by simp, by simpa using fun h => hc h.symm, by simpa using hcd, by simp⟩
    · exact hes e h
  · intro e t out d ih hd hinv
    have hnext : LoopInv false (e :: t) out := by simpa [LoopInv] using hinv
    simpa [cleanLoop] using ih hd hnext
  · intro c e t out d hc hce ih hd hinv
    have hnext : LoopInv false (e :: t) out := by simpa [LoopInv] using hinv
    simpa [cleanLoop, hc, hce] using ih hd hnext
  · -- a .. element
    intro c e t out d hc hce hdd ih hd hinv
    obtain ⟨es, hes, hout⟩ : ∃ es, (∀ e ∈ es, GoodElem e) ∧ out = renderRooted es := by
      simpa [LoopInv] using hinv
    subst hd
    have hstep : ∃ es2, (∀ a ∈ es2, GoodElem a) ∧
        dotdotElem true out 1 = (renderRooted es2, 1) := by
      cases es with
      | nil => exact ⟨[], by simp, by rw [hout]; exact dotdotElem_rooted_nil⟩
      | cons a as =>
        refine ⟨as, fun b hb => hes b (List.mem_cons_of_mem _ hb), ?_⟩
        rw [hout]
        exact dotdotElem_rooted_cons a as (hes a (List.mem_cons_self _ _))
          (fun b hb => hes b (List.mem_cons_of_mem _ hb))
    obtain ⟨es2, hes2, heq⟩ := hstep
    have hnext : LoopInv false t (dotdotElem true out 1).1 := by
      simp only [LoopInv, Bool.false_eq_true, if_false]
      exact ⟨es2, hes2, by rw [heq]⟩
    have h2 : (dotdotElem true out 1).2 = 1 := by rw [heq]
    simpa [cleanLoop, hc, hce, hdd] using ih h2 hnext
  · -- the first byte of a real element
    intro c e t out d hc hce hdd ih hd hinv
    obtain ⟨es, hes, hout⟩ : ∃ es, (∀ e ∈ es, GoodElem e) ∧ out = renderRooted es := by
      simpa [LoopInv] using hinv
    have hnext : LoopInv true (e :: t) (addSlash true out ++ [c]) := by
      simp only [LoopInv, if_true]
      exact ⟨es, [c], hes, goodElem_first c e t hc hce hdd, by simp, by rw [hout]⟩
    simpa [cleanLoop, hc, hce, hdd] using ih hd hnext


theorem Clean_rooted (t : GoString) :
    ∃ es, (∀ e ∈ es, GoodElem e) ∧ Clean (slash :: t) = renderRooted es := by
  have hinv : LoopInv false t [slash] := by
    simp only [LoopInv, Bool.false_eq_true, if_false]
    exact ⟨[], by simp, rfl⟩
  obtain ⟨es, hes, heq⟩ := cleanLoop_rooted false t [slash] 1 rfl hinv
  refine ⟨es, hes, ?_⟩
  have hpos := renderRooted_length_pos es
  have hlen : (renderRooted es).length ≠ 0 := by omega
  simp [Clean, heq, hlen]

theorem Clean_unrooted (c : Nat) (t : GoString) (hc : c ≠ slash) :
    (Clean (c :: t)).head? ≠ some slash := by
  have h := head_cleanLoop_unrooted false (c :: t) [] 0 (by simp)
  simp only [Clean, hc, decide_False, Bool.false_eq_true, if_false]
  split
  · simpa using slash_ne_dot.symm
  · exact h

/-! ## Splitting a name at its slashes -/

theorem splitSlash_ne_nil (a : GoString) : splitSlash a ≠ [] := by
  cases a with
  | nil => simp [splitSlash]
  | cons c t =>
    unfold splitSlash
    split
    · simp
    · split <;> simp

theorem splitSlash_of_not_mem (e : GoString) (he : slash ∉ e) : splitSlash e = [e] := by
  induction e with
  | nil => rfl
  | cons c t ih =>
    have hc : c ≠ slash := fun h => he (h ▸ List.mem_cons_self _ _)
    have ht : slash ∉ t := fun h => he (List.mem_cons_of_mem _ h)
    simp [splitSlash, hc, ih ht]

theorem splitSlash_append (a e : GoString) (he : slash ∉ e) :
    splitSlash (a ++ slash :: e) = splitSlash a ++ [e] := by
  induction a with
  | nil => simp [splitSlash, splitSlash_of_not_mem e he]
  | cons c t ih =>
    by_cases hc : c = slash
    · simp [splitSlash, hc, ih]
    · cases hsp : splitSlash t with
      | nil => exact absurd hsp (splitSlash_ne_nil t)
      | cons x xs => simp [splitSlash, hc, ih, hsp]

/-- The rooted path of good elements is the root slash followed by the elements joined by
single slashes. -/
theorem renderRooted_body (es : List GoString) (hes : ∀ e ∈ es, GoodElem e) :
    ∃ body, renderRooted es = slash :: body ∧ body.head? ≠ some slash ∧
      body.getLast? ≠ some slash ∧ (es = [] → body = []) ∧
      (es ≠ [] → splitSlash body = es.reverse) := by
  induction es with
  | nil => exact ⟨[], rfl, by simp, by simp, by simp, by simp⟩
  | cons e es ih =>
    obtain ⟨b, hb, hhead, _, hnil, hsplit⟩ := ih (fun a ha => hes a (List.mem_cons_of_mem _ ha))
    obtain ⟨hne, hsl, _, _⟩ := hes e (List.mem_cons_self _ _)
    have hlast : ∀ pre : GoString, (pre ++ e).getLast? ≠ some slash := by
      intro pre h
      rw [List.getLast?_append_of_ne_nil _ hne] at h
      rw [List.getLast?_eq_getLast _ hne] at h
      exact hsl ((Option.some.inj h) ▸ List.getLast_mem hne)
    cases es with
    | nil =>
      refine ⟨e, by simp [renderRooted, addSlash], ?_, ?_, by simp,
        fun _ => by simp [splitSlash_of_not_mem e hsl]⟩
      · cases e with
        | nil => simp
        | cons x tl =>
          have hx : x ≠ slash := fun h => hsl (h ▸ List.mem_cons_self _ _)
          simpa using hx
      · simpa using hlast []
    | cons e2 es2 =>
      have hne2 : e2 ≠ [] := (hes e2 (by simp)).1
      have hlen := renderRooted_length_cons e2 es2 hne2
      have hbne : b ≠ [] := by
        intro h
        rw [hb, h] at hlen
        simp at hlen
      refine ⟨b ++ slash :: e, ?_, ?_, ?_, by simp, fun _ => ?_⟩
      · conv => lhs; unfold renderRooted
        simp [addSlash, hb, hbne]
      · cases b with
        | nil => exact absurd rfl hbne
        | cons x tl => simpa using hhead
      · have := hlast (b ++ [slash])
        simpa using this
      · rw [splitSlash_append b e hsl, hsplit (by simp)]
        simp


/-! ## The name opened for a request -/

theorem TrimLeft_of_head (s : GoString) (hs : s.head? ≠ some slash) :
    TrimLeft s (str "/") = s := by
  cases s with
  | nil => simp [TrimLeft]
  | cons c t =>
    have hc : c ≠ slash := by simpa using hs
    simp [TrimLeft, str_slash, List.dropWhile, hc]

theorem TrimLeft_slash_cons (body : GoString) (hb : body.head? ≠ some slash) :
    TrimLeft (slash :: body) (str "/") = body := by
  have h := TrimLeft_of_head body hb
  simp only [TrimLeft, str_slash] at h ⊢
  simpa [List.dropWhile] using h

theorem stripOneSeparator_of_head (s : GoString) (hs : s.head? ≠ some slash) :
    stripOneSeparator s = s := by
  cases s with
  | nil => rfl
  | cons c t =>
    have hc : c ≠ slash := by simpa using hs
    simp [stripOneSeparator, hc]

theorem TrimLeft_Clean (p : GoString) :
    TrimLeft (Clean p) (str "/") = stripOneSeparator (Clean p) := by
  cases p with
  | nil =>
    have h : (Clean []).head? ≠ some slash := by decide
    rw [TrimLeft_of_head _ h, stripOneSeparator_of_head _ h]
  | cons c t =>
    by_cases hc : c = slash
    · subst hc
      obtain ⟨es, hes, heq⟩ := Clean_rooted t
      obtain ⟨body, hb, hhead, _, _, _⟩ := renderRooted_body es hes
      rw [heq, hb, TrimLeft_slash_cons body hhead]
      simp [stripOneSeparator]
    · have h := Clean_unrooted c t hc
      rw [TrimLeft_of_head _ h, stripOneSeparator_of_head _ h]

theorem canServeFile_calls_head (fsys : FS) (file : GoString) :
    (canServeFile fsys file).2.head? = some (Call.Open (TrimLeft file (str "/"))) := by
  unfold canServeFile
  cases hopen : fsys.Open (TrimLeft file (str "/")) with
  | error e => simp [hopen]
  | ok f =>
    cases hstat : f.Stat with
    | error e => simp [hopen, hstat]
    | ok info => cases hdir : info.IsDir <;> simp [hopen, hstat, hdir]

theorem canServeFile_open_name (fsys : FS) (file name : GoString)
    (hcall : Call.Open name ∈ (canServeFile fsys file).2) :
    name = TrimLeft file (str "/") := by
  unfold canServeFile at hcall
  cases hopen : fsys.Open (TrimLeft file (str "/")) with
  | error e => simpa [hopen] using hcall
  | ok f =>
    cases hstat : f.Stat with
    | error e => simpa [hopen, hstat] using hcall
    | ok info => cases hdir : info.IsDir <;> simpa [hopen, hstat, hdir] using hcall

theorem canServeFile_of_regular (fsys : FS) (p : GoString) (f : File) (info : FileInfo)
    (hopen : fsys.Open (stripOneSeparator (Clean p)) = .ok f) (hstat : f.Stat = .ok info)
    (hfile : info.IsDir = false) : (canServeFile fsys (Clean p)).1 = true := by
  rw [canServeFile_fst_eq_true, TrimLeft_Clean]
  exact ⟨f, info, hopen, hstat, hfile⟩

theorem canServeFile_of_missing (fsys : FS) (p : GoString)
    (hmiss : (∃ e, fsys.Open (stripOneSeparator (Clean p)) = .error e) ∨
      ∃ f info, fsys.Open (stripOneSeparator (Clean p)) = .ok f ∧ f.Stat = .ok info ∧
        info.IsDir = true) :
    (canServeFile fsys (Clean p)).1 = false := by
  cases hres : (canServeFile fsys (Clean p)).1 with
  | false => rfl
  | true =>
    rw [canServeFile_fst_eq_true, TrimLeft_Clean] at hres
    obtain ⟨f, info, hopen, hstat, hfile⟩ := hres
    rcases hmiss with ⟨e, he⟩ | ⟨f2, info2, hopen2, hstat2, hdir2⟩
    · rw [hopen] at he
      cases he
    · rw [hopen] at hopen2
      cases hopen2
      rw [hstat] at hstat2
      cases hstat2
      rw [hfile] at hdir2
      cases hdir2

/-! ## The handler -/

theorem handler_calls {W R U : Type} (FileServerFS : FS → Handler W R U) (fsys : FS) (w : W)
    (r : Nat) (h : Heap R U) :
    (newSinglePageAppHandler FileServerFS fsys w r h).2 =
      (canServeFile fsys (Clean (URLPath h r))).2 := by
  cases hserve : (canServeFile fsys (Clean (URLPath h r))).1 <;>
    simp [newSinglePageAppHandler, hserve]

theorem handler_servable {W R U : Type} (FileServerFS : FS → Handler W R U) (fsys : FS)
    (w : W) (r : Nat) (h : Heap R U)
    (hserve : (canServeFile fsys (Clean (URLPath h r))).1 = true) :
    newSinglePageAppHandler FileServerFS fsys w r h =
      (FileServerFS fsys w r h, (canServeFile fsys (Clean (URLPath h r))).2) := by
  simp [newSinglePageAppHandler, hserve]

theorem handler_fallback {W R U : Type} (FileServerFS : FS → Handler W R U) (fsys : FS)
    (w : W) (r : Nat) (h : Heap R U)
    (hno : (canServeFile fsys (Clean (URLPath h r))).1 = false) :
    newSinglePageAppHandler FileServerFS fsys w r h =
      (FileServerFS fsys w (Clone h r (h.requests r).Context).1
        (setURLPath (Clone h r (h.requests r).Context).2
          (Clone h r (h.requests r).Context).1 (str "/")),
        (canServeFile fsys (Clean (URLPath h r))).2) := by
  simp [newSinglePageAppHandler, hno]

theorem URLPath_fallback {R U : Type} (r : Nat) (h : Heap R U) :
    URLPath (setURLPath (Clone h r (h.requests r).Context).2
      (Clone h r (h.requests r).Context).1 (str "/"))
      (Clone h r (h.requests r).Context).1 = str "/" := by
  simp [URLPath, setURLPath]

theorem URLPath_of_requests {R U : Type} (a : Heap R U) (r : Nat) (q : Request R)
    (hq : a.requests r = q) : URLPath a r = (a.urls q.URL).Path := by
  simp [URLPath, hq]

theorem URLPath_congr {R U : Type} (a b : Heap R U) (r : Nat)
    (hq : a.requests r = b.requests r)
    (hl : a.urls (b.requests r).URL = b.urls (b.requests r).URL) :
    URLPath a r = URLPath b r := by
  simp [URLPath, hq, hl]

theorem fallback_requests {R U : Type} (r : Nat) (h : Heap R U) (p : Nat)
    (hp : p < h.nextRequest) :
    (setURLPath (Clone h r (h.requests r).Context).2
      (Clone h r (h.requests r).Context).1 (str "/")).requests p = h.requests p := by
  have hne : p ≠ h.nextRequest := by omega
  simp [setURLPath, Clone, Function.update, hne]

theorem fallback_urls {R U : Type} (r : Nat) (h : Heap R U) (u : Nat) (hu : u < h.nextURL) :
    (setURLPath (Clone h r (h.requests r).Context).2
      (Clone h r (h.requests r).Context).1 (str "/")).urls u = h.urls u := by
  have hne : u ≠ h.nextURL := by omega
  simp [setURLPath, Clone, Function.update, hne]

/-- C1: when the cleaned URL path of a request, its leading separator stripped, opens,
stats successfully and is not a directory, the handler built by `newSinglePageAppHandler`
hands the delegate file server the request it received, with the URL path as received, and
its result is the result of the delegate serving that request directly (together with the
calls of its servability check). -/
theorem servable_request_forwarded_unmodified {W R U : Type}
    (FileServerFS : FS → Handler W R U) (fsys : FS) (w : W) (r : Nat) (h : Heap R U)
    (f : File) (info : FileInfo)
    (hopen : fsys.Open (stripOneSeparator (Clean (URLPath h r))) = .ok f)
    (hstat : f.Stat = .ok info) (hfile : info.IsDir = false) :
    newSinglePageAppHandler FileServerFS fsys w r h =
      (FileServerFS fsys w r h, (canServeFile fsys (Clean (URLPath h r))).2) :=
  handler_servable FileServerFS fsys w r h
    (canServeFile_of_regular fsys (URLPath h r) f info hopen hstat hfile)

/-- C1 at `GET /assets/./app.js` on the demonstration source: the delegate is asked for the
path as received, not for the cleaned `/assets/app.js`. -/
theorem servable_request_forwarded_unmodified_witness :
    Clean (str "/assets/./app.js") = str "/assets/app.js" ∧
    newSinglePageAppHandler demoServer demoFS [] 0 (demoHeap (str "/assets/./app.js")) =
      ((str "/assets/./app.js", demoHeap (str "/assets/./app.js")),
        [Call.Open (str "assets/app.js"), Call.Stat 4, Call.Close 4]) :=
  ⟨by decide,
    servable_request_forwarded_unmodified demoServer demoFS [] 0
      (demoHeap (str "/assets/./app.js")) ⟨4, .ok ⟨2048, false⟩⟩ ⟨2048, false⟩ rfl rfl rfl⟩

/-- C2: when the cleaned URL path of a request, its leading separator stripped, cannot be
opened in the asset source or names a directory, the handler hands the delegate file server
a request whose URL path is exactly `/`, whatever the path received was. -/
theorem unservable_request_forwarded_as_root {R U : Type} (fsys : FS) (r : Nat)
    (h : Heap R U)
    (hmiss : (∃ e, fsys.Open (stripOneSeparator (Clean (URLPath h r))) = .error e) ∨
      ∃ f info, fsys.Open (stripOneSeparator (Clean (URLPath h r))) = .ok f ∧
        f.Stat = .ok info ∧ info.IsDir = true) :
    ∃ r2 h2, URLPath h2 r2 = str "/" ∧
      ∀ (W : Type) (FileServerFS : FS → Handler W R U) (w : W),
        newSinglePageAppHandler FileServerFS fsys w r h =
          (FileServerFS fsys w r2 h2, (canServeFile fsys (Clean (URLPath h r))).2) :=
  ⟨_, _, URLPath_fallback r h, fun _ FileServerFS w =>
    handler_fallback FileServerFS fsys w r h (canServeFile_of_missing fsys (URLPath h r) hmiss)⟩

/-- C2 at `GET /assets/missing.js`, `GET /foo/bar/baz`, `GET /assets` (a directory) and
`GET /` on the demonstration source: the delegate is asked for `/` each time. -/
theorem unservable_request_forwarded_as_root_witness :
    (newSinglePageAppHandler demoServer demoFS [] 0 (demoHeap (str "/assets/missing.js"))).1.1
        = str "/" ∧
    (newSinglePageAppHandler demoServer demoFS [] 0 (demoHeap (str "/foo/bar/baz"))).1.1
        = str "/" ∧
    (newSinglePageAppHandler demoServer demoFS [] 0 (demoHeap (str "/assets"))).1.1
        = str "/" ∧
    (newSinglePageAppHandler demoServer demoFS [] 0 (demoHeap (str "/"))).1.1 = str "/" := by
  have key : ∀ p : GoString,
      ((∃ e, demoFS.Open (stripOneSeparator (Clean (URLPath (demoHeap p) 0))) = .error e) ∨
        ∃ f info, demoFS.Open (stripOneSeparator (Clean (URLPath (demoHeap p) 0))) = .ok f ∧
          f.Stat = .ok info ∧ info.IsDir = true) →
      (newSinglePageAppHandler demoServer demoFS [] 0 (demoHeap p)).1.1 = str "/" := by
    intro p hp
    obtain ⟨r2, h2, hpath, hfw⟩ := unservable_request_forwarded_as_root demoFS 0 (demoHeap p) hp
    rw [hfw GoString demoServer []]
    exact hpath
  refine ⟨key _ (Or.inl ⟨_, rfl⟩), key _ (Or.inl ⟨_, rfl⟩),
    key _ (Or.inr ⟨_, ⟨0, true⟩, rfl, rfl, rfl⟩), key _ (Or.inl ⟨_, rfl⟩)⟩

/-- C3: servability is decided on the normalized path. Two requests whose URL paths have the
same `path.Clean` result, and in particular a request for `/a/../b.js` and one for `/b.js`,
are handled alike by the handler on every asset source: `canServeFile` gives the same
decision, the handler makes the same calls on the asset source, and either both requests are
handed to the delegate as received or both are replaced by a copy with the URL path `/`. -/
theorem servability_decided_on_clean_path {R U : Type} (fsys : FS) (r1 r2 : Nat)
    (h1 h2 : Heap R U)
    (hclean : Clean (URLPath h1 r1) = Clean (URLPath h2 r2) ∨
      (URLPath h1 r1 = str "/a/../b.js" ∧ URLPath h2 r2 = str "/b.js")) :
    canServeFile fsys (Clean (URLPath h1 r1)) = canServeFile fsys (Clean (URLPath h2 r2)) ∧
    (∀ (W : Type) (FileServerFS : FS → Handler W R U) (w1 w2 : W),
      (newSinglePageAppHandler FileServerFS fsys w1 r1 h1).2 =
        (newSinglePageAppHandler FileServerFS fsys w2 r2 h2).2) ∧
    (((∀ (W : Type) (FileServerFS : FS → Handler W R U) (w : W),
        (newSinglePageAppHandler FileServerFS fsys w r1 h1).1 = FileServerFS fsys w r1 h1) ∧
      (∀ (W : Type) (FileServerFS : FS → Handler W R U) (w : W),
        (newSinglePageAppHandler FileServerFS fsys w r2 h2).1 = FileServerFS fsys w r2 h2)) ∨
     ∃ c1 m1 c2 m2, URLPath m1 c1 = str "/" ∧ URLPath m2 c2 = str "/" ∧
      (h1.nextRequest ≤ c1 ∧ h2.nextRequest ≤ c2) ∧
      (∀ (W : Type) (FileServerFS : FS → Handler W R U) (w : W),
        (newSinglePageAppHandler FileServerFS fsys w r1 h1).1 = FileServerFS fsys w c1 m1) ∧
      (∀ (W : Type) (FileServerFS : FS → Handler W R U) (w : W),
        (newSinglePageAppHandler FileServerFS fsys w r2 h2).1 = FileServerFS fsys w c2 m2)) := by
  have heq : Clean (URLPath h1 r1) = Clean (URLPath h2 r2) := by
    rcases hclean with h | ⟨ha, hb⟩
    · exact h
    · rw [ha, hb]
      decide
  refine ⟨by rw [heq], ?_, ?_⟩
  · intro W FileServerFS w1 w2
    rw [handler_calls, handler_calls, heq]
  · cases hserve : (canServeFile fsys (Clean (URLPath h1 r1))).1 with
    | true =>
      have hserve2 : (canServeFile fsys (Clean (URLPath h2 r2))).1 = true := by
        rw [← heq]
        exact hserve
      refine Or.inl ⟨fun W FileServerFS w => ?_, fun W FileServerFS w => ?_⟩
      · rw [handler_servable FileServerFS fsys w r1 h1 hserve]
      · rw [handler_servable FileServerFS fsys w r2 h2 hserve2]
    | false =>
      have hno2 : (canServeFile fsys (Clean (URLPath h2 r2))).1 = false := by
        rw [← heq]
        exact hserve
      refine Or.inr ⟨_, _, _, _, URLPath_fallback r1 h1, URLPath_fallback r2 h2,
        ⟨by simp [Clone], by simp [Clone]⟩, fun W FileServerFS w => ?_,
        fun W FileServerFS w => ?_⟩
      · rw [handler_fallback FileServerFS fsys w r1 h1 hserve]
      · rw [handler_fallback FileServerFS fsys w r2 h2 hno2]

/-- C3 on the demonstration source: the request for `/x/../assets//app.js` opens
`assets/app.js`, the request for `/assets/app.js` makes the same calls, and `/a/../b.js`
gets the decision of `/b.js`. -/
theorem servability_decided_on_clean_path_witness :
    (newSinglePageAppHandler demoServer demoFS [] 0 (demoHeap (str "/x/../assets//app.js"))).2 =
      [Call.Open (str "assets/app.js"), Call.Stat 4, Call.Close 4] ∧
    (newSinglePageAppHandler demoServer demoFS [] 0 (demoHeap (str "/x/../assets//app.js"))).2 =
      (newSinglePageAppHandler demoServer demoFS [] 0 (demoHeap (str "/assets/app.js"))).2 ∧
    canServeFile demoFS (Clean (URLPath (demoHeap (str "/a/../b.js")) 0)) =
      canServeFile demoFS (Clean (URLPath (demoHeap (str "/b.js")) 0)) :=
  ⟨by decide,
   (servability_decided_on_clean_path demoFS 0 0 (demoHeap (str "/x/../assets//app.js"))
      (demoHeap (str "/assets/app.js")) (Or.inl (by decide))).2.1 GoString demoServer [] [],
   (servability_decided_on_clean_path demoFS 0 0 (demoHeap (str "/a/../b.js"))
      (demoHeap (str "/b.js")) (Or.inr ⟨rfl, rfl⟩)).1⟩

/-- C4: `NewSinglePageAppHandler` returns a non-nil error exactly when it runs in debug mode
and either the caller's source location cannot be obtained or the resolved directory cannot
be opened. The first error is `could not get caller information`, the second is the error
of `os.OpenRoot` unchanged, and the returned handler is nil with either. In regular mode
the result is the handler over the given `embedFs` with a nil error, for every `embedFs`
and `embedPath`. -/
theorem constructor_errors {W R U : Type} (rt : Runtime) (FileServerFS : FS → Handler W R U)
    (embedFs : FS) (embedPath : GoString) :
    ((NewSinglePageAppHandler rt FileServerFS embedFs embedPath).2 ≠ none ↔
      rt.Debug = true ∧ (rt.Caller 2 = none ∨
        ∃ loc e, rt.Caller 2 = some loc ∧
          rt.OpenRoot (rt.Join (rt.Dir loc) embedPath) = .error e)) ∧
    (rt.Debug = true → rt.Caller 2 = none →
      NewSinglePageAppHandler rt FileServerFS embedFs embedPath =
        (none, some (errorsNew (str "could not get caller information")))) ∧
    (∀ loc e, rt.Debug = true → rt.Caller 2 = some loc →
      rt.OpenRoot (rt.Join (rt.Dir loc) embedPath) = .error e →
      NewSinglePageAppHandler rt FileServerFS embedFs embedPath = (none, some e)) ∧
    ((NewSinglePageAppHandler rt FileServerFS embedFs embedPath).2 ≠ none →
      (NewSinglePageAppHandler rt FileServerFS embedFs embedPath).1 = none) ∧
    (rt.Debug = false →
      NewSinglePageAppHandler rt FileServerFS embedFs embedPath =
        (some (newSinglePageAppHandler FileServerFS embedFs), none)) := by
  unfold NewSinglePageAppHandler newSinglePageAppHandlerDebug
  cases hdebug : rt.Debug with
  | false => simp
  | true =>
    cases hcaller : rt.Caller 2 with
    | none => simp
    | some loc =>
      cases hroot : rt.OpenRoot (rt.Join (rt.Dir loc) embedPath) with
      | error e =>
        simp only [hroot]
        refine ⟨by simp [hroot], by simp, ?_, by simp, by simp⟩
        intro loc2 e2 _ hloc hroot2
        cases hloc
        rw [hroot] at hroot2
        cases hroot2
        rfl
      | ok static =>
        simp only [hroot]
        refine ⟨by simp [hroot], by simp, ?_, by simp, by simp⟩
        intro loc2 e2 _ hloc hroot2
        cases hloc
        rw [hroot] at hroot2
        cases hroot2

/-- C4 on the demonstration environments: regular mode succeeds; in debug mode the
directory `/src/web/missing` cannot be opened and its error comes back with a nil handler;
without caller information the error is `could not get caller information`. -/
theorem constructor_errors_witness :
    (NewSinglePageAppHandler (demoRuntime false) demoServer demoFS (str "dist")).2 = none ∧
    (NewSinglePageAppHandler (demoRuntime true) demoServer demoFS (str "missing")) =
      (none, some ⟨str "no such file or directory"⟩) ∧
    (NewSinglePageAppHandler { demoRuntime true with Caller := fun _ => none } demoServer
      demoFS (str "dist")) =
      (none, some ⟨str "could not get caller information"⟩) :=
  ⟨by rw [(constructor_errors (demoRuntime false) demoServer demoFS (str "dist")).2.2.2.2 rfl],
    (constructor_errors (demoRuntime true) demoServer demoFS (str "missing")).2.2.1
      (str "/src/web/main.go") ⟨str "no such file or directory"⟩ rfl rfl rfl,
    (constructor_errors { demoRuntime true with Caller := fun _ => none } demoServer demoFS
      (str "dist")).2.1 rfl rfl⟩

/-- C5: for a request that is not servable, the copy handed to the delegate file server
carries the context of the original request and equals the original in every field other
than the URL path, which is `/`. -/
theorem fallback_copy_keeps_context_and_fields {R U : Type} (fsys : FS) (r : Nat)
    (h : Heap R U) (hno : (canServeFile fsys (Clean (URLPath h r))).1 = false) :
    ∃ r2 h2,
      (∀ (W : Type) (FileServerFS : FS → Handler W R U) (w : W),
        newSinglePageAppHandler FileServerFS fsys w r h =
          (FileServerFS fsys w r2 h2, (canServeFile fsys (Clean (URLPath h r))).2)) ∧
      (h2.requests r2).Context = (h.requests r).Context ∧
      (h2.requests r2).rest = (h.requests r).rest ∧
      (h2.urls (h2.requests r2).URL).rest = (h.urls (h.requests r).URL).rest ∧
      (h2.urls (h2.requests r2).URL).Path = str "/" := by
  refine ⟨(Clone h r (h.requests r).Context).1,
    setURLPath (Clone h r (h.requests r).Context).2 (Clone h r (h.requests r).Context).1
      (str "/"), ?_, ?_, ?_, ?_, ?_⟩
  · intro W FileServerFS w
    exact handler_fallback FileServerFS fsys w r h hno
  · simp [setURLPath, Clone, Request.Context]
  · simp [setURLPath, Clone]
  · simp [setURLPath, Clone]
  · simp [setURLPath, Clone]

/-- C5 at `GET /deep/link` on the demonstration source, which has no such file. -/
theorem fallback_copy_keeps_context_and_fields_witness :
    (canServeFile demoFS (Clean (URLPath (demoHeap (str "/deep/link")) 0))).1 = false ∧
    ∃ r2 h2,
      (∀ (W : Type) (FileServerFS : FS → Handler W Nat Nat) (w : W),
        newSinglePageAppHandler FileServerFS demoFS w 0 (demoHeap (str "/deep/link")) =
          (FileServerFS demoFS w r2 h2,
            (canServeFile demoFS (Clean (URLPath (demoHeap (str "/deep/link")) 0))).2)) ∧
      (h2.requests r2).Context = 9 ∧
      (h2.requests r2).rest = 1 ∧
      (h2.urls (h2.requests r2).URL).rest = 2 ∧
      (h2.urls (h2.requests r2).URL).Path = str "/" :=
  ⟨by decide,
    fallback_copy_keeps_context_and_fields demoFS 0 (demoHeap (str "/deep/link")) (by decide)⟩

/-- C6: `canServeFile` returns true if and only if opening the name succeeds, `Stat` on the
opened entry succeeds and the entry is not a directory. An open failure, a stat failure and
a directory each give false; the result is a boolean in every case, never an error. -/
theorem canServeFile_true_iff_regular_file (fsys : FS) (file : GoString) :
    ((canServeFile fsys file).1 = true ↔
      ∃ f info, fsys.Open (TrimLeft file (str "/")) = .ok f ∧ f.Stat = .ok info ∧
        info.IsDir = false) ∧
    (∀ e, fsys.Open (TrimLeft file (str "/")) = .error e →
      (canServeFile fsys file).1 = false) ∧
    (∀ f e, fsys.Open (TrimLeft file (str "/")) = .ok f → f.Stat = .error e →
      (canServeFile fsys file).1 = false) ∧
    (∀ f info, fsys.Open (TrimLeft file (str "/")) = .ok f → f.Stat = .ok info →
      info.IsDir = true → (canServeFile fsys file).1 = false) := by
  refine ⟨canServeFile_fst_eq_true fsys file, ?_, ?_, ?_⟩
  · intro e hopen
    simp [canServeFile, hopen]
  · intro f e hopen hstat
    simp [canServeFile, hopen, hstat]
  · intro f info hopen hstat hdir
    simp [canServeFile, hopen, hstat, hdir]

/-- C6 on the demonstration source: a file is servable; a missing name, an entry whose
`Stat` fails and a directory are not. -/
theorem canServeFile_true_iff_regular_file_witness :
    (canServeFile demoFS (str "/index.html")).1 = true ∧
    (canServeFile demoFS (str "/missing.js")).1 = false ∧
    (canServeFile demoFS (str "/broken")).1 = false ∧
    (canServeFile demoFS (str "/assets")).1 = false :=
  ⟨(canServeFile_true_iff_regular_file demoFS (str "/index.html")).1.mpr
      ⟨⟨3, .ok ⟨120, false⟩⟩, ⟨120, false⟩, rfl, rfl, rfl⟩,
    (canServeFile_true_iff_regular_file demoFS (str "/missing.js")).2.1
      ⟨str "file does not exist"⟩ rfl,
    (canServeFile_true_iff_regular_file demoFS (str "/broken")).2.2.1
      ⟨7, .error ⟨str "input/output error"⟩⟩ ⟨str "input/output error"⟩ rfl rfl,
    (canServeFile_true_iff_regular_file demoFS (str "/assets")).2.2.2
      ⟨5, .ok ⟨0, true⟩⟩ ⟨0, true⟩ rfl rfl rfl⟩

/-- C7: when the open succeeds, `canServeFile` closes the opened handle exactly once, as its
last call, on every exit path (stat failure, directory, servable file), and closes nothing
else; when the open fails it closes nothing. The handles open on the asset source after the
check are those open before it. -/
theorem canServeFile_closes_opened_handle_once (fsys : FS) (file : GoString)
    (opened : List Nat) :
    (∀ f, fsys.Open (TrimLeft file (str "/")) = .ok f →
      closeCalls (canServeFile fsys file).2 = [f.fd] ∧
      (canServeFile fsys file).2.getLast? = some (Call.Close f.fd)) ∧
    (∀ e, fsys.Open (TrimLeft file (str "/")) = .error e →
      closeCalls (canServeFile fsys file).2 = []) ∧
    openHandles fsys (canServeFile fsys file).2 opened = opened := by
  unfold canServeFile
  cases hopen : fsys.Open (TrimLeft file (str "/")) with
  | error e => simp [hopen, closeCalls, openHandles]
  | ok f =>
    cases hstat : f.Stat with
    | error e => simp [hopen, hstat, closeCalls, openHandles]
    | ok info =>
      cases hdir : info.IsDir <;> simp [hopen, hstat, hdir, closeCalls, openHandles]

/-- C7 on the demonstration source, with handles 1 and 2 open before the check: the stat
failure path closes handle 7 once and leaves 1 and 2 open. -/
theorem canServeFile_closes_opened_handle_once_witness :
    closeCalls (canServeFile demoFS (str "/broken")).2 = [7] ∧
    (canServeFile demoFS (str "/broken")).2.getLast? = some (Call.Close 7) ∧
    openHandles demoFS (canServeFile demoFS (str "/broken")).2 [1, 2] = [1, 2] :=
  ⟨((canServeFile_closes_opened_handle_once demoFS (str "/broken") [1, 2]).1
      ⟨7, .error ⟨str "input/output error"⟩⟩ rfl).1,
    ((canServeFile_closes_opened_handle_once demoFS (str "/broken") [1, 2]).1
      ⟨7, .error ⟨str "input/output error"⟩⟩ rfl).2,
    (canServeFile_closes_opened_handle_once demoFS (str "/broken") [1, 2]).2.2⟩

/-- C8: for every request, the name the handler opens against the asset source is the
`path.Clean` result of the URL path with a single leading separator stripped: it is the
first call the handler makes and its only `Open`, and stripping all leading slashes from the
cleaned path, as `strings.TrimLeft` does, gives the same string as removing at most one. -/
theorem opened_name_strips_one_separator {W R U : Type} (FileServerFS : FS → Handler W R U)
    (fsys : FS) (w : W) (r : Nat) (h : Heap R U) :
    TrimLeft (Clean (URLPath h r)) (str "/") = stripOneSeparator (Clean (URLPath h r)) ∧
    (newSinglePageAppHandler FileServerFS fsys w r h).2.head? =
      some (Call.Open (stripOneSeparator (Clean (URLPath h r)))) ∧
    ∀ name, Call.Open name ∈ (newSinglePageAppHandler FileServerFS fsys w r h).2 →
      name = stripOneSeparator (Clean (URLPath h r)) := by
  refine ⟨TrimLeft_Clean _, ?_, ?_⟩
  · rw [handler_calls, canServeFile_calls_head, TrimLeft_Clean]
  · intro name hcall
    rw [handler_calls] at hcall
    rw [canServeFile_open_name fsys _ name hcall, TrimLeft_Clean]

/-- C8 at `GET ///assets//app.js` on the demonstration source: the handler opens
`assets/app.js`, inspects it and closes it. -/
theorem opened_name_strips_one_separator_witness :
    (newSinglePageAppHandler demoServer demoFS [] 0 (demoHeap (str "///assets//app.js"))).2 =
      [Call.Open (str "assets/app.js"), Call.Stat 4, Call.Close 4] ∧
    (newSinglePageAppHandler demoServer demoFS [] 0
      (demoHeap (str "///assets//app.js"))).2.head? =
      some (Call.Open (str "assets/app.js")) :=
  ⟨by decide,
   (opened_name_strips_one_separator demoServer demoFS [] 0
    (demoHeap (str "///assets//app.js"))).2.1⟩

/-- C9, as stated, fails: with the standard library's file server as the delegate, the
servable request for `assets/app.js` on the demonstration source has the URL path
`/assets/app.js` when the handler returns, not the path it was given. -/
theorem request_path_rewritten_by_file_server :
    URLPath (demoHeap (str "assets/app.js")) 0 = str "assets/app.js" ∧
    (canServeFile demoFS (Clean (URLPath (demoHeap (str "assets/app.js")) 0))).1 = true ∧
    URLPath (newSinglePageAppHandler (fileHandler demoServeFile) demoFS [] 0
      (demoHeap (str "assets/app.js"))).1.2 0 = str "/assets/app.js" ∧
    URLPath (newSinglePageAppHandler (fileHandler demoServeFile) demoFS [] 0
      (demoHeap (str "assets/app.js"))).1.2 0 ≠ URLPath (demoHeap (str "assets/app.js")) 0 := by
  decide

/-- C9, amended: the handler's own code does not modify the request it was given. For a
request and URL that are allocated in memory, the memory the handler hands to the delegate,
servable or not, holds every allocated request and URL struct unchanged, and the request
handed over is the original or a copy at fresh addresses, which is where the rewrite to `/`
is written. With the standard library's file server as the delegate, its `serveFile` not
writing to the request, the request struct and every URL field other than the path are
unchanged when the handler returns; the URL path is unchanged when it begins with `/` or
the request is not servable, and has a `/` put in front of it by the delegate when the
request is servable and its path does not begin with `/`. -/
theorem handler_modifies_only_its_copy {R U : Type} (fsys : FS) (r : Nat) (h : Heap R U)
    (hr : r < h.nextRequest) (hu : (h.requests r).URL < h.nextURL) :
    (∃ r2 h2,
      (∀ (W : Type) (FileServerFS : FS → Handler W R U) (w : W),
        (newSinglePageAppHandler FileServerFS fsys w r h).1 = FileServerFS fsys w r2 h2) ∧
      (∀ p, p < h.nextRequest → h2.requests p = h.requests p) ∧
      (∀ u, u < h.nextURL → h2.urls u = h.urls u) ∧
      h2.requests r = h.requests r ∧ URLPath h2 r = URLPath h r ∧
      (r2 = r ∨ (h.nextRequest ≤ r2 ∧ h.nextURL ≤ (h2.requests r2).URL))) ∧
    ∀ (W : Type) (serveFile : W → Nat → Heap R U → FS → GoString → Bool → W × Heap R U)
      (w : W),
      (∀ w1 r1 h1 root name redirect,
        (serveFile w1 r1 h1 root name redirect).2.requests r = h1.requests r ∧
        (serveFile w1 r1 h1 root name redirect).2.urls (h.requests r).URL =
          h1.urls (h.requests r).URL) →
      (newSinglePageAppHandler (fileHandler serveFile) fsys w r h).1.2.requests r =
        h.requests r ∧
      ((newSinglePageAppHandler (fileHandler serveFile) fsys w r h).1.2.urls
        (h.requests r).URL).rest = (h.urls (h.requests r).URL).rest ∧
      ((HasPrefix (URLPath h r) (str "/") = true ∨
          (canServeFile fsys (Clean (URLPath h r))).1 = false) →
        URLPath (newSinglePageAppHandler (fileHandler serveFile) fsys w r h).1.2 r =
          URLPath h r) ∧
      (HasPrefix (URLPath h r) (str "/") = false →
        (canServeFile fsys (Clean (URLPath h r))).1 = true →
        URLPath (newSinglePageAppHandler (fileHandler serveFile) fsys w r h).1.2 r =
          str "/" ++ URLPath h r) := by
  constructor
  · cases hserve : (canServeFile fsys (Clean (URLPath h r))).1 with
    | true =>
      refine ⟨r, h, ?_, fun _ _ => rfl, fun _ _ => rfl, rfl, rfl, Or.inl rfl⟩
      intro W FileServerFS w
      rw [handler_servable FileServerFS fsys w r h hserve]
    | false =>
      refine ⟨(Clone h r (h.requests r).Context).1,
        setURLPath (Clone h r (h.requests r).Context).2
          (Clone h r (h.requests r).Context).1 (str "/"),
        fun W FileServerFS w => ?_, fallback_requests r h, fallback_urls r h,
        fallback_requests r h r hr, ?_, Or.inr ⟨?_, ?_⟩⟩
      · rw [handler_fallback FileServerFS fsys w r h hserve]
      · simp only [URLPath]
        rw [fallback_requests r h r hr, fallback_urls r h _ hu]
      · simp [Clone]
      · simp [setURLPath, Clone]
  · intro W serveFile w hframe
    cases hserve : (canServeFile fsys (Clean (URLPath h r))).1 with
    | false =>
      rw [handler_fallback (fileHandler serveFile) fsys w r h hserve]
      have hslash : HasPrefix (str "/") (str "/") = true := by decide
      have hdel : fileHandler serveFile fsys w (Clone h r (h.requests r).Context).1
          (setURLPath (Clone h r (h.requests r).Context).2
            (Clone h r (h.requests r).Context).1 (str "/")) =
          serveFile w (Clone h r (h.requests r).Context).1
            (setURLPath (Clone h r (h.requests r).Context).2
              (Clone h r (h.requests r).Context).1 (str "/")) fsys (Clean (str "/")) true := by
        simp [fileHandler, URLPath_fallback, hslash]
      obtain ⟨hq, hl⟩ := hframe w (Clone h r (h.requests r).Context).1
        (setURLPath (Clone h r (h.requests r).Context).2
          (Clone h r (h.requests r).Context).1 (str "/")) fsys (Clean (str "/")) true
      simp only [hdel]
      have hq3 := hq.trans (fallback_requests r h r hr)
      have hl3 := hl.trans (fallback_urls r h _ hu)
      exact ⟨hq3, by rw [hl3], fun _ => URLPath_congr _ h r hq3 hl3,
        fun _ hcontra => by cases hcontra⟩
    | true =>
      rw [handler_servable (fileHandler serveFile) fsys w r h hserve]
      cases hpre : HasPrefix (URLPath h r) (str "/") with
      | true =>
        have hdel : fileHandler serveFile fsys w r h =
            serveFile w r h fsys (Clean (URLPath h r)) true := by
          simp [fileHandler, hpre]
        obtain ⟨hq, hl⟩ := hframe w r h fsys (Clean (URLPath h r)) true
        simp only [hdel]
        exact ⟨hq, by rw [hl], fun _ => URLPath_congr _ h r hq hl,
          fun hcontra _ => by cases hcontra⟩
      | false =>
        have hdel : fileHandler serveFile fsys w r h =
            serveFile w r (setURLPath h r (str "/" ++ URLPath h r)) fsys
              (Clean (str "/" ++ URLPath h r)) true := by
          simp [fileHandler, hpre]
        obtain ⟨hq, hl⟩ := hframe w r (setURLPath h r (str "/" ++ URLPath h r)) fsys
          (Clean (str "/" ++ URLPath h r)) true
        simp only [hdel]
        have hq2 : (setURLPath h r (str "/" ++ URLPath h r)).requests r = h.requests r := rfl
        refine ⟨by rw [hq, hq2], ?_, fun hcase => ?_, fun _ _ => ?_⟩
        · rw [hl]
          simp [setURLPath]
        · rcases hcase with hc | hc <;> cases hc
        · rw [URLPath_of_requests _ r (h.requests r) (hq.trans hq2), hl]
          simp [setURLPath, URLPath]

/-- C9, amended, on the demonstration source with the standard library's file server as the
delegate: after the fallback for `GET /deep/link` the request at address 0 still has the
path `/deep/link`; after the servable request for `assets/app.js` its path is
`/assets/app.js`. -/
theorem handler_modifies_only_its_copy_witness :
    URLPath (newSinglePageAppHandler (fileHandler demoServeFile) demoFS [] 0
      (demoHeap (str "/deep/link"))).1.2 0 = URLPath (demoHeap (str "/deep/link")) 0 ∧
    URLPath (newSinglePageAppHandler (fileHandler demoServeFile) demoFS [] 0
      (demoHeap (str "assets/app.js"))).1.2 0 =
      str "/" ++ URLPath (demoHeap (str "assets/app.js")) 0 :=
  ⟨((handler_modifies_only_its_copy demoFS 0 (demoHeap (str "/deep/link"))
      (by decide) (by decide)).2 GoString demoServeFile []
      (fun _ _ _ _ _ _ => ⟨rfl, rfl⟩)).2.2.1 (Or.inl (by decide)),
   ((handler_modifies_only_its_copy demoFS 0 (demoHeap (str "assets/app.js"))
      (by decide) (by decide)).2 GoString demoServeFile []
      (fun _ _ _ _ _ _ => ⟨rfl, rfl⟩)).2.2.2 (by decide) (by decide)⟩

/-- C10: for every request whose URL path begins with `/`, the name the handler passes to
the asset source's `Open` in its servability check is either empty or a slash-separated
path with no empty, `.` or `..` element and no leading or trailing `/`. -/
theorem opened_name_stays_in_root {W R U : Type} (FileServerFS : FS → Handler W R U)
    (fsys : FS) (w : W) (r : Nat) (h : Heap R U) (name : GoString)
    (hp : (URLPath h r).head? = some slash)
    (hcall : Call.Open name ∈ (newSinglePageAppHandler FileServerFS fsys w r h).2) :
    name = [] ∨
      ((∀ e ∈ splitSlash name, e ≠ [] ∧ e ≠ str "." ∧ e ≠ str "..") ∧
        name.head? ≠ some slash ∧ name.getLast? ≠ some slash) := by
  rw [handler_calls] at hcall
  have hname := canServeFile_open_name fsys (Clean (URLPath h r)) name hcall
  cases hpath : URLPath h r with
  | nil => simp [hpath] at hp
  | cons c t =>
    rw [hpath] at hp hname
    have hc : c = slash := by simpa using hp
    subst hc
    obtain ⟨es, hes, heq⟩ := Clean_rooted t
    obtain ⟨body, hb, hhead, hlast, hnil, hsplit⟩ := renderRooted_body es hes
    rw [heq, hb, TrimLeft_slash_cons body hhead] at hname
    subst hname
    cases es with
    | nil => exact Or.inl (hnil rfl)
    | cons a as =>
      refine Or.inr ⟨?_, hhead, hlast⟩
      intro e he
      rw [hsplit (by simp)] at he
      have hgood := hes e (List.mem_reverse.mp he)
      exact ⟨hgood.1, hgood.2.2.1, hgood.2.2.2⟩

/-- C10 at `GET /../../etc/./passwd` on the demonstration source: the name the handler opens
is `etc/passwd`. -/
theorem opened_name_stays_in_root_witness :
    Call.Open (str "etc/passwd") ∈
      (newSinglePageAppHandler demoServer demoFS [] 0
        (demoHeap (str "/../../etc/./passwd"))).2 ∧
    (str "etc/passwd" = [] ∨
      ((∀ e ∈ splitSlash (str "etc/passwd"), e ≠ [] ∧ e ≠ str "." ∧ e ≠ str "..") ∧
        (str "etc/passwd").head? ≠ some slash ∧
        (str "etc/passwd").getLast? ≠ some slash)) :=
  ⟨by decide,
    opened_name_stays_in_root demoServer demoFS [] 0 (demoHeap (str "/../../etc/./passwd"))
      (str "etc/passwd") (by decide) (by decide)⟩

end GoHandlers
